import Mathlib

/-!
Verification development for the Path Point Decimator add-on
(`Path_point_dicimator.py`).  The algorithmic core — index selection by
stride and by minimum spatial distance — is embedded shallowly over exact
rational arithmetic; the host-facing operator (`execute`) is embedded as a
state transformer over an explicit context.  Host primitives that live
outside the add-on (the editor's delete operator and mode switches) are
modelled from the specification, as noted in their doc comments.
-/

/-- A 3D vector with exact rational coordinates, standing in for
`mathutils.Vector` 3-component values. -/
structure V3 where
  x : ℚ
  y : ℚ
  z : ℚ
deriving DecidableEq, Repr

instance : Inhabited V3 := ⟨⟨0, 0, 0⟩⟩

/-- Squared Euclidean distance between two 3D points.  The source compares
`(cur - last).length >= dist_thresh`; since that comparison only happens on
the branch where `dist_thresh > 0`, it is equivalent to
`dist_thresh² ≤ distSq cur last` (see `sq_threshold_test_faithful`). -/
def distSq (a b : V3) : ℚ :=
  (a.x - b.x) * (a.x - b.x) + (a.y - b.y) * (a.y - b.y) + (a.z - b.z) * (a.z - b.z)

/-- The world transform of an object (`obj.matrix_world`): the action of an
affine 4×4 matrix on a 3D vector (Blender treats the vector as homogeneous
with w = 1 and keeps the first three output components). -/
structure Affine where
  r1 : V3
  r2 : V3
  r3 : V3
  t : V3
deriving DecidableEq, Repr

/-- Apply the affine world transform to a 3D vector: `matrix_world @ v`. -/
def Affine.apply (m : Affine) (v : V3) : V3 :=
  ⟨m.r1.x * v.x + m.r1.y * v.y + m.r1.z * v.z + m.t.x,
   m.r2.x * v.x + m.r2.y * v.y + m.r2.z * v.z + m.t.y,
   m.r3.x * v.x + m.r3.y * v.y + m.r3.z * v.z + m.t.z⟩

/-- The identity world transform. -/
def Affine.id : Affine :=
  ⟨⟨1, 0, 0⟩, ⟨0, 1, 0⟩, ⟨0, 0, 1⟩, ⟨0, 0, 0⟩⟩

/-- A control point's `co` attribute: NURBS/POLY points carry homogeneous
4-component coordinates `(x, y, z, w)`, Bezier points carry `(x, y, z)`. -/
inductive PointCo where
  | co3 (x y z : ℚ)
  | co4 (x y z w : ℚ)
deriving DecidableEq, Repr

instance : Inhabited PointCo := ⟨.co3 0 0 0⟩

/-- The first three components of a point's coordinates (the position). -/
def PointCo.xyz : PointCo → V3
  | .co3 x y z => ⟨x, y, z⟩
  | .co4 x y z _ => ⟨x, y, z⟩

/-- A control point as the operator sees it: its coordinates plus selection
flags (`select` for NURBS/POLY points; `select_control_point`,
`select_left_handle`, `select_right_handle` for Bezier points, with `sel`
playing the role of `select_control_point`). -/
structure CPoint where
  co : PointCo
  sel : Bool
  selL : Bool
  selR : Bool
deriving DecidableEq, Repr

instance : Inhabited CPoint := ⟨default, false, false, false⟩

/-- Build an unselected control point from its coordinates. -/
def mkPt (c : PointCo) : CPoint := ⟨c, false, false, false⟩

/-- Embedding of `_get_world_co_from_point(obj, p)`: take the first three components of
`p.co` (dropping the weight of a 4-component NURBS/POLY coordinate) and map
them through the object's world matrix. -/
def _get_world_co_from_point (m : Affine) (p : CPoint) : V3 :=
  match p.co with
  | .co4 x y z _ => m.apply ⟨x, y, z⟩
  | .co3 x y z => m.apply ⟨x, y, z⟩

/-- Embedding of `_compute_keep_indices_step(n, step)`: for `n ≤ 2` keep everything;
otherwise clamp `step` to at least 2 and keep `{0, n-1}` together with every
interior index divisible by the clamped step. -/
def _compute_keep_indices_step (n : ℕ) (step : ℤ) : Finset ℕ :=
  if n ≤ 2 then Finset.range n
  else
    {0, n - 1} ∪ (Finset.Ico 1 (n - 1)).filter (fun i => (i : ℤ) % (max 2 step) = 0)

/-- World position of the `i`-th point of the spline. -/
def worldAt (m : Affine) (pts : List CPoint) (i : ℕ) : V3 :=
  _get_world_co_from_point m (pts.getD i default)

/-- The loop of `_compute_keep_indices_distance`: scan the interior indices
`idxs` in order, keeping index `i` exactly when its world position is at
squared distance ≥ `t * t` from the last kept position `last`. -/
def distLoop (m : Affine) (pts : List CPoint) (t : ℚ) :
    List ℕ → List ℕ → V3 → List ℕ
  | [], keep, _ => keep
  | i :: rest, keep, last =>
    let cur := worldAt m pts i
    if t * t ≤ distSq cur last then
      distLoop m pts t rest (keep ++ [i]) cur
    else
      distLoop m pts t rest keep last

/-- Embedding of `_compute_keep_indices_distance(obj, pts, dist_thresh)`: keep everything
when `n ≤ 2` or the threshold is non-positive; otherwise greedily keep the
interior points at (squared) distance at least the threshold from the last
kept point, always keeping index 0 and index `n - 1`. -/
def _compute_keep_indices_distance (m : Affine) (pts : List CPoint) (t : ℚ) :
    Finset ℕ :=
  if pts.length ≤ 2 ∨ t ≤ 0 then Finset.range pts.length
  else
    (distLoop m pts t (List.range' 1 (pts.length - 2)) [0] (worldAt m pts 0) ++
      [pts.length - 1]).toFinset

/-- The kind of a spline (`sp.type`): Bezier points carry handles, POLY and
NURBS points do not. -/
inductive SplineType where
  | BEZIER
  | POLY
  | NURBS
deriving DecidableEq, Repr

/-- A spline: an ordered sequence of control points of one kind. -/
structure Spline where
  ty : SplineType
  pts : List CPoint
deriving DecidableEq, Repr

instance : Inhabited Spline := ⟨.POLY, []⟩

/-- The kind of an object (`o.type`); only `CURVE` objects are targets. -/
inductive ObjType where
  | CURVE
  | OTHER
deriving DecidableEq, Repr

/-- A scene object: its kind, its interaction mode (`obj.mode`, a string
such as OBJECT or EDIT), its world matrix and its curve data (splines). -/
structure Obj where
  ty : ObjType
  mode : String
  matrix : Affine
  splines : List Spline
deriving DecidableEq, Repr

instance : Inhabited Obj := ⟨.OTHER, "OBJECT", Affine.id, []⟩

/-- The decimation mode scene property (`pathdec_mode`). -/
inductive DecMode where
  | STEP
  | DIST
deriving DecidableEq, Repr

/-- The three scene properties registered by the add-on. -/
structure SceneProps where
  mode : DecMode
  step : ℤ
  distance : ℚ
deriving DecidableEq, Repr

/-- The operator's context: the scene objects (identified by their position
in `objs`), which of them are selected, which is active, and the scene
properties. -/
structure Ctx where
  objs : List Obj
  selected : List ℕ
  active : Option ℕ
  scn : SceneProps
deriving DecidableEq, Repr

/-- Embedding of `_curve_targets(context)`: the selected curve objects, or else the
active object when it is a curve, or else nothing. -/
def _curve_targets (c : Ctx) : List ℕ :=
  let sel := c.selected.filter (fun i => (c.objs.getD i default).ty = ObjType.CURVE)
  if sel ≠ [] then sel
  else
    match c.active with
    | some a => if (c.objs.getD a default).ty = ObjType.CURVE then [a] else []
    | none => []

/-- Modelled from the spec: the host's mode transition primitive
`bpy.ops.object.mode_set` (§6(f)) sets the interaction mode of the given
object. -/
def setObjMode (c : Ctx) (oid : ℕ) (m : String) : Ctx :=
  { c with objs := c.objs.set oid { c.objs.getD oid default with mode := m } }

/-- Clear the selection flags of every point of a spline, as the first half
of `_select_points_in_editmode` does (Bezier points clear control point and
both handles; other points clear `select`). -/
def clearPointSel (s : Spline) : Spline :=
  if s.ty = SplineType.BEZIER then
    { s with pts := s.pts.map (fun p => { p with sel := false, selL := false, selR := false }) }
  else
    { s with pts := s.pts.map (fun p => { p with sel := false }) }

/-- Select the points of a spline whose index lies in `idxs`, as the second
half of `_select_points_in_editmode` does (Bezier points also select both
handles). -/
def selectTargets (s : Spline) (idxs : Finset ℕ) : Spline :=
  if s.ty = SplineType.BEZIER then
    { s with pts := s.pts.mapIdx (fun i p =>
        if i ∈ idxs then { p with sel := true, selL := true, selR := true } else p) }
  else
    { s with pts := s.pts.mapIdx (fun i p =>
        if i ∈ idxs then { p with sel := true } else p) }

/-- Embedding of `_select_points_in_editmode(obj, spline_index, indices_to_select)`:
clear the selection of every spline of the object, then select exactly the
given indices within spline `si`. -/
def _select_points_in_editmode (c : Ctx) (oid si : ℕ) (idxs : Finset ℕ) : Ctx :=
  let ob := c.objs.getD oid default
  let cleared := ob.splines.map clearPointSel
  let sp := cleared.getD si default
  { c with objs :=
      c.objs.set oid ({ ob with splines := cleared.set si (selectTargets sp idxs) }) }

/-- Modelled from the spec: the host's deletion primitive
`bpy.ops.curve.delete(type=VERT)` (§6(e)) removes every currently-selected
point of the active object's curve. -/
def hostDeleteSelected (o : Obj) : Obj :=
  { o with splines := o.splines.map (fun s => { s with pts := s.pts.filter (fun p => !p.sel) }) }

/-- Embedding of `_delete_selected_points(context)`: delete the selected points of the
active object's curve through the host primitive. -/
def _delete_selected_points (c : Ctx) (oid : ℕ) : Ctx :=
  { c with objs := c.objs.set oid (hostDeleteSelected (c.objs.getD oid default)) }

/-- Result status of an operator. -/
inductive OpResult where
  | FINISHED
  | CANCELLED
deriving DecidableEq, Repr

/-- Report level of `self.report`. -/
inductive Level where
  | WARNING
  | INFO
deriving DecidableEq, Repr

/-- One `self.report` call: a level and a message. -/
structure Report where
  lvl : Level
  msg : String
deriving DecidableEq, Repr

/-- The per-spline body of the operator's loop: count trivially small
splines, otherwise compute the keep set for the configured mode, derive the
delete set, and when it is non-empty select it and delete it, accumulating
the removed-point and processed-spline counters. -/
def processSpline (oid : ℕ) (acc : Ctx × ℕ × ℕ) (si : ℕ) : Ctx × ℕ × ℕ :=
  let c := acc.1
  let removed := acc.2.1
  let splines := acc.2.2
  let ob := c.objs.getD oid default
  let sp := ob.splines.getD si default
  let n := sp.pts.length
  if n ≤ 2 then (c, removed, splines + 1)
  else
    let keep :=
      if c.scn.mode = DecMode.STEP then _compute_keep_indices_step n c.scn.step
      else _compute_keep_indices_distance ob.matrix sp.pts c.scn.distance
    let del := (Finset.range n).filter (fun i => i ∉ keep)
    if del ≠ ∅ then
      let c1 := _select_points_in_editmode c oid si del
      let c2 := _delete_selected_points c1 oid
      (c2, removed + del.card, splines + 1)
    else (c, removed, splines + 1)

/-- The per-object body of the operator's loop: make the object active,
force OBJECT mode if needed, enter EDIT mode, skip objects with no splines,
process every spline, and return to OBJECT mode. -/
def processObj (acc : Ctx × ℕ × ℕ) (oid : ℕ) : Ctx × ℕ × ℕ :=
  let c0 := { acc.1 with active := some oid }
  let ob := c0.objs.getD oid default
  let c1 := if ob.mode ≠ "OBJECT" then setObjMode c0 oid "OBJECT" else c0
  let c2 := setObjMode c1 oid "EDIT"
  let ob2 := c2.objs.getD oid default
  if ob2.splines = [] then (setObjMode c2 oid "OBJECT", acc.2.1, acc.2.2)
  else
    let r := (List.range ob2.splines.length).foldl (processSpline oid) (c2, acc.2.1, acc.2.2)
    (setObjMode r.1 oid "OBJECT", r.2.1, r.2.2)

/-- The warning message reported when no curve target exists. -/
def noTargetMsg : String := "No curve object selected (or active)."

/-- The summary message reported on success. -/
def summaryMsg (objs splines removed : ℕ) : String :=
  "Decimated " ++ toString objs ++ " curve(s), " ++ toString splines ++
    " spline(s). Removed ~" ++ toString removed ++ " point(s)."

/-- Embedding of `PATHDECIMATE_OT_decimate.execute(context)`: resolve targets (warning
and CANCELLED when none), remember the active object and its mode, process
every target object, restore the previous active object and — guarded by a
try/except whose failure `restoreOk = false` models — its previous mode,
then report the summary and return FINISHED. -/
def execute (restoreOk : Bool) (c : Ctx) : OpResult × Ctx × List Report :=
  let objs := _curve_targets c
  if objs = [] then
    (OpResult.CANCELLED, c, [⟨Level.WARNING, noTargetMsg⟩])
  else
    let prevActive := c.active
    let prevMode :=
      match prevActive with
      | some a => (c.objs.getD a default).mode
      | none => "OBJECT"
    let st := objs.foldl processObj (c, 0, 0)
    let c2 :=
      match prevActive with
      | some a =>
        let cA := { st.1 with active := some a }
        if restoreOk then setObjMode cA a prevMode else cA
      | none => st.1
    (OpResult.FINISHED, c2, [⟨Level.INFO, summaryMsg objs.length st.2.2 st.2.1⟩])

/-- The increasing enumeration of a stride keep set (the surviving points
in their original order). -/
def sortedKeep (n : ℕ) (step : ℤ) : List ℕ :=
  (List.range n).filter (fun i => i ∈ _compute_keep_indices_step n step)

/-- Re-apply the stride selection to the kept subsequence: renumber the
`m` surviving points as `0 … m-1`, select again with the same step, and map
the selected positions back to the original indices. -/
def reapplyStride (n : ℕ) (step : ℤ) : Finset ℕ :=
  let l := sortedKeep n step
  (_compute_keep_indices_step l.length step).image (fun i => l.getD i 0)

/-- The concrete positions of the spec's distance scenario. -/
def pts5 : List CPoint :=
  [mkPt (.co3 0 0 0), mkPt (.co3 (1/10) 0 0), mkPt (.co3 1 0 0),
   mkPt (.co3 (21/20) 0 0), mkPt (.co3 2 0 0)]

/-- The squared-distance test used by the embedding agrees with the
source's Euclidean test `(cur - last).length ≥ dist_thresh` whenever the
threshold is positive (which is the only case in which the source reaches
the test), since squaring is monotone on non-negative reals. -/
lemma sq_threshold_test_faithful (t d : ℚ) (ht : 0 < t) :
    ((t : ℝ) ≤ Real.sqrt (d : ℝ)) ↔ t * t ≤ d := by
  rw [Real.le_sqrt' (by exact_mod_cast ht), sq]
  constructor <;> intro h <;> exact_mod_cast h

/-- Squared distances are non-negative, so `Real.sqrt` of them is the
genuine Euclidean distance. -/
lemma distSq_nonneg (a b : V3) : 0 ≤ distSq a b := by
  unfold distSq
  have h1 := mul_self_nonneg (a.x - b.x)
  have h2 := mul_self_nonneg (a.y - b.y)
  have h3 := mul_self_nonneg (a.z - b.z)
  linarith

/-- Every index kept by the stride policy is a valid index. -/
lemma stride_mem_lt (n : ℕ) (step : ℤ) (i : ℕ)
    (hi : i ∈ _compute_keep_indices_step n step) : i < n := by
  unfold _compute_keep_indices_step at hi
  split_ifs at hi with h
  · exact Finset.mem_range.mp hi
  · simp only [Finset.mem_union, Finset.mem_insert, Finset.mem_singleton,
      Finset.mem_filter, Finset.mem_Ico] at hi
    rcases hi with (h0 | h1) | ⟨⟨_, hb⟩, _⟩ <;> omega

/-- Membership in the stride keep set, spelled out. -/
lemma stride_mem_iff (n : ℕ) (step : ℤ) (i : ℕ) :
    i ∈ _compute_keep_indices_step n step ↔
      (n ≤ 2 ∧ i < n) ∨
      (3 ≤ n ∧ (i = 0 ∨ i = n - 1 ∨
        (1 ≤ i ∧ i ≤ n - 2 ∧ (i : ℤ) % (max 2 step) = 0))) := by
  unfold _compute_keep_indices_step
  split_ifs with h
  · simp only [Finset.mem_range]
    constructor
    · intro hi
      exact Or.inl ⟨h, hi⟩
    · rintro (⟨_, hi⟩ | ⟨h3, _⟩)
      · exact hi
      · omega
  · simp only [Finset.mem_union, Finset.mem_insert, Finset.mem_singleton,
      Finset.mem_filter, Finset.mem_Ico]
    constructor
    · rintro ((h0 | h1) | ⟨⟨ha, hb⟩, hm⟩)
      · exact Or.inr ⟨by omega, Or.inl h0⟩
      · exact Or.inr ⟨by omega, Or.inr (Or.inl h1)⟩
      · exact Or.inr ⟨by omega, Or.inr (Or.inr ⟨ha, by omega, hm⟩)⟩
    · rintro (⟨h2, _⟩ | ⟨h3, (h0 | h1 | ⟨ha, hb, hm⟩)⟩)
      · omega
      · exact Or.inl (Or.inl h0)
      · exact Or.inl (Or.inr h1)
      · exact Or.inr ⟨⟨ha, by omega⟩, hm⟩

/-- The clamped step is at least 2, so 1 is never divisible by it. -/
lemma one_emod_clamped (step : ℤ) : (1 : ℤ) % (max 2 step) = 1 :=
  Int.emod_eq_of_lt (by norm_num)
    (lt_of_lt_of_le (by norm_num) (le_max_left 2 step))

/-- C1: for every point count and step, the stride keep set is the full
index set when `n ≤ 2`, and otherwise — with the step clamped to at least
2 — exactly `{0, n-1}` together with the interior indices divisible by the
clamped step. -/
theorem C1_stride_characterization (n : ℕ) (step : ℤ) (i : ℕ) :
    i ∈ _compute_keep_indices_step n step ↔
      (n ≤ 2 ∧ i < n) ∨
      (3 ≤ n ∧ (i = 0 ∨ i = n - 1 ∨
        (1 ≤ i ∧ i ≤ n - 2 ∧ (i : ℤ) % (max 2 step) = 0))) :=
  stride_mem_iff n step i

/-- C4: the distance policy keeps every index as soon as the spline is
trivially small or the threshold is non-positive; in particular a zero
threshold keeps everything whatever the positions are. -/
theorem C4_distance_trivial_cases (m : Affine) (pts : List CPoint) (t : ℚ)
    (h : pts.length ≤ 2 ∨ t ≤ 0) :
    _compute_keep_indices_distance m pts t = Finset.range pts.length := by
  unfold _compute_keep_indices_distance
  rw [if_pos h]

/-- Witness for C4 at the concrete scenario: threshold 0 keeps all five
indices of `pts5`. -/
theorem C4_distance_trivial_cases_witness :
    _compute_keep_indices_distance Affine.id pts5 0 = Finset.range 5 :=
  C4_distance_trivial_cases Affine.id pts5 0 (Or.inr le_rfl)

/-- C10: with at least three points the stride policy never keeps index 1
(the clamped step is at least 2), so the delete set computed by the
operator is non-empty and stride decimation always removes a point. -/
theorem C10_stride_always_removes (n : ℕ) (step : ℤ) (h : 3 ≤ n) :
    1 ∉ _compute_keep_indices_step n step ∧
    ((Finset.range n).filter
      (fun i => i ∉ _compute_keep_indices_step n step)).Nonempty := by
  have h1 : 1 ∉ _compute_keep_indices_step n step := by
    rw [stride_mem_iff]
    rintro (⟨h2, _⟩ | ⟨_, (h0 | hlast | ⟨_, _, hm⟩)⟩)
    · omega
    · omega
    · omega
    · rw [Nat.cast_one, one_emod_clamped] at hm
      exact one_ne_zero hm
  exact ⟨h1, ⟨1, Finset.mem_filter.2 ⟨Finset.mem_range.2 (by omega), h1⟩⟩⟩

/-- Witness for C10 at `n = 3`, `step = 2`. -/
theorem C10_stride_always_removes_witness :
    1 ∉ _compute_keep_indices_step 3 2 ∧
    ((Finset.range 3).filter
      (fun i => i ∉ _compute_keep_indices_step 3 2)).Nonempty :=
  C10_stride_always_removes 3 2 (by norm_num)

/-- C8: the stride policy is not idempotent across re-application: at
`n = 10`, `step = 3` the keep set is `{0, 3, 6, 9}`, but re-applying the
policy to the four renumbered survivors keeps `{0, 9}` of the original
indices. -/
theorem C8_stride_not_idempotent :
    ∃ n, 3 ≤ n ∧ ∃ step : ℤ, 2 ≤ step ∧
      reapplyStride n step ≠ _compute_keep_indices_step n step := by
  refine ⟨10, by norm_num, 3, by norm_num, ?_⟩
  decide

/-- Everything the greedy scan returns was already kept or is one of the
scanned indices. -/
lemma distLoop_mem (m : Affine) (pts : List CPoint) (t : ℚ) :
    ∀ (idxs keep : List ℕ) (last : V3) (x : ℕ),
      x ∈ distLoop m pts t idxs keep last → x ∈ keep ∨ x ∈ idxs := by
  intro idxs
  induction idxs with
  | nil =>
    intro keep last x hx
    exact Or.inl hx
  | cons i rest ih =>
    intro keep last x hx
    simp only [distLoop] at hx
    split_ifs at hx with hc
    · rcases ih (keep ++ [i]) (worldAt m pts i) x hx with hk | hr
      · rcases List.mem_append.mp hk with hk' | hk'
        · exact Or.inl hk'
        · exact Or.inr (by simpa using Or.inl (List.mem_singleton.mp hk'))
      · exact Or.inr (List.mem_cons_of_mem i hr)
    · rcases ih keep last x hx with hk | hr
      · exact Or.inl hk
      · exact Or.inr (List.mem_cons_of_mem i hr)

/-- The greedy scan never drops an index that was already kept. -/
lemma distLoop_keep_subset (m : Affine) (pts : List CPoint) (t : ℚ) :
    ∀ (idxs keep : List ℕ) (last : V3) (x : ℕ),
      x ∈ keep → x ∈ distLoop m pts t idxs keep last := by
  intro idxs
  induction idxs with
  | nil =>
    intro keep last x hx
    exact hx
  | cons i rest ih =>
    intro keep last x hx
    simp only [distLoop]
    split_ifs with hc
    · exact ih (keep ++ [i]) (worldAt m pts i) x (List.mem_append.mpr (Or.inl hx))
    · exact ih keep last x hx

/-- Every index kept by the distance policy is a valid index. -/
lemma distance_mem_lt (m : Affine) (pts : List CPoint) (t : ℚ) (x : ℕ)
    (hx : x ∈ _compute_keep_indices_distance m pts t) : x < pts.length := by
  unfold _compute_keep_indices_distance at hx
  split_ifs at hx with h
  · exact Finset.mem_range.mp hx
  · push_neg at h
    rw [List.mem_toFinset, List.mem_append] at hx
    rcases hx with hl | hlast
    · rcases distLoop_mem m pts t _ _ _ x hl with h0 | hr
      · have : x = 0 := List.mem_singleton.mp h0
        omega
      · have := List.mem_range'_1.mp hr
        omega
    · have : x = pts.length - 1 := List.mem_singleton.mp hlast
      omega

/-- Index 0 is always kept by the distance policy on a non-empty spline. -/
lemma distance_zero_mem (m : Affine) (pts : List CPoint) (t : ℚ)
    (h : 1 ≤ pts.length) : 0 ∈ _compute_keep_indices_distance m pts t := by
  unfold _compute_keep_indices_distance
  split_ifs with hc
  · exact Finset.mem_range.mpr (by omega)
  · rw [List.mem_toFinset, List.mem_append]
    exact Or.inl (distLoop_keep_subset m pts t _ _ _ 0 (List.mem_singleton.mpr rfl))

/-- The last index is always kept by the distance policy on a non-empty
spline. -/
lemma distance_last_mem (m : Affine) (pts : List CPoint) (t : ℚ)
    (h : 1 ≤ pts.length) :
    pts.length - 1 ∈ _compute_keep_indices_distance m pts t := by
  unfold _compute_keep_indices_distance
  split_ifs with hc
  · exact Finset.mem_range.mpr (by omega)
  · rw [List.mem_toFinset, List.mem_append]
    exact Or.inr (List.mem_singleton.mpr rfl)

/-- C3: for any non-empty spline, both policies keep index 0 and the last
index, return only valid indices in non-decreasing sorted order, and keep
at most `n` indices. -/
theorem C3_keepset_wellformed (n : ℕ) (step : ℤ) (m : Affine)
    (pts : List CPoint) (t : ℚ) (h1 : 1 ≤ n) (h2 : pts.length = n) :
    (0 ∈ _compute_keep_indices_step n step ∧
      n - 1 ∈ _compute_keep_indices_step n step ∧
      (∀ i ∈ _compute_keep_indices_step n step, i ≤ n - 1) ∧
      (_compute_keep_indices_step n step).card ≤ n ∧
      ((_compute_keep_indices_step n step).sort (· ≤ ·)).Sorted (· ≤ ·)) ∧
    (0 ∈ _compute_keep_indices_distance m pts t ∧
      n - 1 ∈ _compute_keep_indices_distance m pts t ∧
      (∀ i ∈ _compute_keep_indices_distance m pts t, i ≤ n - 1) ∧
      (_compute_keep_indices_distance m pts t).card ≤ n ∧
      ((_compute_keep_indices_distance m pts t).sort (· ≤ ·)).Sorted (· ≤ ·)) := by
  subst h2
  constructor
  · refine ⟨?_, ?_, ?_, ?_, Finset.sort_sorted _ _⟩
    · rw [stride_mem_iff]
      by_cases h : pts.length ≤ 2
      · exact Or.inl ⟨h, by omega⟩
      · exact Or.inr ⟨by omega, Or.inl rfl⟩
    · rw [stride_mem_iff]
      by_cases h : pts.length ≤ 2
      · exact Or.inl ⟨h, by omega⟩
      · exact Or.inr ⟨by omega, Or.inr (Or.inl rfl)⟩
    · intro i hi
      have := stride_mem_lt _ _ _ hi
      omega
    · calc (_compute_keep_indices_step pts.length step).card
          ≤ (Finset.range pts.length).card :=
            Finset.card_le_card (fun i hi =>
              Finset.mem_range.mpr (stride_mem_lt _ _ _ hi))
        _ = pts.length := Finset.card_range _
  · refine ⟨distance_zero_mem m pts t h1, distance_last_mem m pts t h1,
      ?_, ?_, Finset.sort_sorted _ _⟩
    · intro i hi
      have := distance_mem_lt m pts t i hi
      omega
    · calc (_compute_keep_indices_distance m pts t).card
          ≤ (Finset.range pts.length).card :=
            Finset.card_le_card (fun i hi =>
              Finset.mem_range.mpr (distance_mem_lt m pts t i hi))
        _ = pts.length := Finset.card_range _

/-- Witness for C3 at a concrete three-point spline. -/
theorem C3_keepset_wellformed_witness :
    1 ≤ 3 ∧ pts5.length = 5 ∧
    (0 ∈ _compute_keep_indices_step 5 2 ∧
      5 - 1 ∈ _compute_keep_indices_step 5 2 ∧
      (∀ i ∈ _compute_keep_indices_step 5 2, i ≤ 5 - 1) ∧
      (_compute_keep_indices_step 5 2).card ≤ 5 ∧
      ((_compute_keep_indices_step 5 2).sort (· ≤ ·)).Sorted (· ≤ ·)) ∧
    (0 ∈ _compute_keep_indices_distance Affine.id pts5 (1/2) ∧
      5 - 1 ∈ _compute_keep_indices_distance Affine.id pts5 (1/2) ∧
      (∀ i ∈ _compute_keep_indices_distance Affine.id pts5 (1/2), i ≤ 5 - 1) ∧
      (_compute_keep_indices_distance Affine.id pts5 (1/2)).card ≤ 5 ∧
      ((_compute_keep_indices_distance Affine.id pts5 (1/2)).sort (· ≤ ·)).Sorted (· ≤ ·)) :=
  ⟨by norm_num, by decide,
    C3_keepset_wellformed 5 2 Affine.id pts5 (1/2) (by norm_num) (by decide)⟩

/-- Two indices are far apart when the squared distance of their world
positions is at least the squared threshold — the source's keep test with
the earlier kept index first. -/
def farRel (m : Affine) (pts : List CPoint) (t : ℚ) (a b : ℕ) : Prop :=
  t * t ≤ distSq (worldAt m pts b) (worldAt m pts a)

/-- The greedy scan preserves the head of the keep list. -/
lemma distLoop_head? (m : Affine) (pts : List CPoint) (t : ℚ) :
    ∀ (idxs keep : List ℕ) (last : V3), keep ≠ [] →
      (distLoop m pts t idxs keep last).head? = keep.head? := by
  intro idxs
  induction idxs with
  | nil =>
    intro keep last _
    rfl
  | cons i rest ih =>
    intro keep last hne
    simp only [distLoop]
    split_ifs with hc
    · rw [ih (keep ++ [i]) (worldAt m pts i) (by simp), List.head?_append]
      rcases keep with _ | ⟨a, keep'⟩
      · exact absurd rfl hne
      · rfl
    · exact ih keep last hne

/-- Invariant of the greedy scan: starting from a strictly increasing keep
list whose adjacent entries are far apart, whose last entry's world
position is the reference `last`, and whose entries all precede the
pairwise-increasing indices still to scan, the scan returns a strictly
increasing list whose adjacent entries are far apart. -/
lemma distLoop_chain (m : Affine) (pts : List CPoint) (t : ℚ) :
    ∀ (idxs keep : List ℕ) (last : V3) (j : ℕ),
      keep.getLast? = some j →
      last = worldAt m pts j →
      idxs.Pairwise (· < ·) →
      (∀ x ∈ keep, ∀ i ∈ idxs, x < i) →
      keep.Chain' (· < ·) →
      keep.Chain' (farRel m pts t) →
      (distLoop m pts t idxs keep last).Chain' (· < ·) ∧
      (distLoop m pts t idxs keep last).Chain' (farRel m pts t) := by
  intro idxs
  induction idxs with
  | nil =>
    intro keep last j _ _ _ _ hlt hfar
    exact ⟨hlt, hfar⟩
  | cons i rest ih =>
    intro keep last j hlast hw hpw hbound hlt hfar
    have hji : j < i :=
      hbound j (List.mem_of_mem_getLast? hlast) i (List.mem_cons_self i rest)
    have hpw' := (List.pairwise_cons.mp hpw).2
    have hhead := (List.pairwise_cons.mp hpw).1
    simp only [distLoop]
    split_ifs with hc
    · refine ih (keep ++ [i]) (worldAt m pts i) i (List.getLast?_concat keep) rfl
        hpw' ?_ ?_ ?_
      · intro x hx r hr
        rcases List.mem_append.mp hx with hk | hi
        · exact hbound x hk r (List.mem_cons_of_mem i hr)
        · rw [List.mem_singleton.mp hi]
          exact hhead r hr
      · rw [List.chain'_append]
        refine ⟨hlt, List.chain'_singleton i, ?_⟩
        intro x hx y hy
        rw [Option.mem_def, hlast, Option.some_inj] at hx
        rw [Option.mem_def, List.head?_cons, Option.some_inj] at hy
        subst hx
        subst hy
        exact hji
      · rw [List.chain'_append]
        refine ⟨hfar, List.chain'_singleton i, ?_⟩
        intro x hx y hy
        rw [Option.mem_def, hlast, Option.some_inj] at hx
        rw [Option.mem_def, List.head?_cons, Option.some_inj] at hy
        subst hx
        subst hy
        unfold farRel
        rw [← hw]
        exact hc
    · refine ih keep last j hlast hw hpw' ?_ hlt hfar
      intro x hx r hr
      exact hbound x hx r (List.mem_cons_of_mem i hr)

/-- C2: with at least three points and a positive threshold, the distance
keep set is exactly the greedy scan's list (with the forced last index
appended): the list starts at index 0, is strictly increasing, and each
adjacent pair of kept indices — except possibly the final pair ending at
the forced last index — is at least the threshold apart. -/
theorem C2_distance_greedy_spacing (m : Affine) (pts : List CPoint) (t : ℚ)
    (h3 : 3 ≤ pts.length) (ht : 0 < t) :
    _compute_keep_indices_distance m pts t =
      (distLoop m pts t (List.range' 1 (pts.length - 2)) [0] (worldAt m pts 0) ++
        [pts.length - 1]).toFinset ∧
    (distLoop m pts t (List.range' 1 (pts.length - 2)) [0]
        (worldAt m pts 0)).head? = some 0 ∧
    (distLoop m pts t (List.range' 1 (pts.length - 2)) [0] (worldAt m pts 0) ++
        [pts.length - 1]).Chain' (· < ·) ∧
    (distLoop m pts t (List.range' 1 (pts.length - 2)) [0]
        (worldAt m pts 0)).Chain' (farRel m pts t) := by
  have hcond : ¬(pts.length ≤ 2 ∨ t ≤ 0) := by
    push_neg
    exact ⟨by omega, ht⟩
  have hchains :=
    distLoop_chain m pts t (List.range' 1 (pts.length - 2)) [0]
      (worldAt m pts 0) 0 rfl rfl (List.pairwise_lt_range' 1 _ 1 (by norm_num))
      (by
        intro x hx i hi
        rw [List.mem_singleton.mp hx]
        exact (List.mem_range'_1.mp hi).1)
      (List.chain'_singleton 0) (List.chain'_singleton 0)
  refine ⟨?_, ?_, ?_, hchains.2⟩
  · unfold _compute_keep_indices_distance
    rw [if_neg hcond]
  · exact distLoop_head? m pts t _ [0] _ (by simp)
  · rw [List.chain'_append]
    refine ⟨hchains.1, List.chain'_singleton _, ?_⟩
    intro x hx y hy
    rw [Option.mem_def, List.head?_cons, Option.some_inj] at hy
    subst hy
    have hxl := List.mem_of_mem_getLast? hx
    rcases distLoop_mem m pts t _ _ _ x hxl with h0 | hr
    · rw [List.mem_singleton.mp h0]
      omega
    · have := List.mem_range'_1.mp hr
      omega

/-- Witness for C2 at the concrete scenario positions with threshold 1/2. -/
theorem C2_distance_greedy_spacing_witness :
    _compute_keep_indices_distance Affine.id pts5 (1/2) =
      (distLoop Affine.id pts5 (1/2) (List.range' 1 (pts5.length - 2)) [0]
          (worldAt Affine.id pts5 0) ++ [pts5.length - 1]).toFinset ∧
    (distLoop Affine.id pts5 (1/2) (List.range' 1 (pts5.length - 2)) [0]
        (worldAt Affine.id pts5 0)).head? = some 0 ∧
    (distLoop Affine.id pts5 (1/2) (List.range' 1 (pts5.length - 2)) [0]
        (worldAt Affine.id pts5 0) ++ [pts5.length - 1]).Chain' (· < ·) ∧
    (distLoop Affine.id pts5 (1/2) (List.range' 1 (pts5.length - 2)) [0]
        (worldAt Affine.id pts5 0)).Chain' (farRel Affine.id pts5 (1/2)) :=
  C2_distance_greedy_spacing Affine.id pts5 (1/2) (by decide) one_half_pos

/-- The world coordinate of a point is its position mapped through the
world matrix: the fourth component never enters. -/
lemma get_world_eq_apply_xyz (m : Affine) (p : CPoint) :
    _get_world_co_from_point m p = m.apply p.co.xyz := by
  rcases p with ⟨co, s, l, r⟩
  cases co <;> rfl

/-- Two point lists that agree on positions give the same world coordinate
at every index. -/
lemma worldAt_congr (m : Affine) (pts pts' : List CPoint)
    (hl : List.Forall₂ (fun a b => a.co.xyz = b.co.xyz) pts pts') (i : ℕ) :
    worldAt m pts i = worldAt m pts' i := by
  unfold worldAt
  rw [get_world_eq_apply_xyz, get_world_eq_apply_xyz]
  congr 1
  rcases Nat.lt_or_ge i pts.length with hi | hi
  · have hlen := hl.length_eq
    have h1 : pts.getD i default = pts.get ⟨i, hi⟩ := List.getD_eq_get pts default hi
    have h2 : pts'.getD i default = pts'.get ⟨i, by omega⟩ :=
      List.getD_eq_get pts' default (by omega)
    rw [h1, h2]
    exact List.forall₂_iff_get.mp hl |>.2 i hi (by omega)
  · have hlen := hl.length_eq
    rw [List.getD_eq_default _ _ hi, List.getD_eq_default _ _ (by omega)]

/-- The greedy scan only looks at world coordinates, so it cannot see the
fourth component either. -/
lemma distLoop_congr (m : Affine) (pts pts' : List CPoint) (t : ℚ)
    (hw : ∀ i, worldAt m pts i = worldAt m pts' i) :
    ∀ (idxs keep : List ℕ) (last : V3),
      distLoop m pts t idxs keep last = distLoop m pts' t idxs keep last := by
  intro idxs
  induction idxs with
  | nil =>
    intro keep last
    rfl
  | cons i rest ih =>
    intro keep last
    simp only [distLoop, hw i]
    split_ifs with hc
    · exact ih (keep ++ [i]) (worldAt m pts' i)
    · exact ih keep last

/-- C9: the fourth (weight) component of a homogeneous point never
influences the outcome: points agreeing on x, y, z get the same world
coordinate, and point lists agreeing componentwise on x, y, z produce
identical distance keep sets. -/
theorem C9_w_component_irrelevant (m : Affine) (p q : CPoint)
    (pts pts' : List CPoint) (t : ℚ)
    (hpq : p.co.xyz = q.co.xyz)
    (hl : List.Forall₂ (fun a b => a.co.xyz = b.co.xyz) pts pts') :
    _get_world_co_from_point m p = _get_world_co_from_point m q ∧
    _compute_keep_indices_distance m pts t =
      _compute_keep_indices_distance m pts' t := by
  constructor
  · rw [get_world_eq_apply_xyz, get_world_eq_apply_xyz, hpq]
  · have hlen := hl.length_eq
    have hw := worldAt_congr m pts pts' hl
    unfold _compute_keep_indices_distance
    rw [← hlen]
    split_ifs with hc
    · rfl
    · rw [distLoop_congr m pts pts' t hw, hw 0]

/-- Witness for C9: a weight change from 4 to 7 leaves the world
coordinate and the keep set unchanged. -/
theorem C9_w_component_irrelevant_witness :
    _get_world_co_from_point Affine.id (mkPt (.co4 1 2 3 4)) =
      _get_world_co_from_point Affine.id (mkPt (.co4 1 2 3 7)) ∧
    _compute_keep_indices_distance Affine.id
        [mkPt (.co4 0 0 0 4), mkPt (.co4 1 0 0 5), mkPt (.co4 2 0 0 6)] 1 =
      _compute_keep_indices_distance Affine.id
        [mkPt (.co4 0 0 0 7), mkPt (.co4 1 0 0 8), mkPt (.co4 2 0 0 9)] 1 :=
  C9_w_component_irrelevant Affine.id (mkPt (.co4 1 2 3 4)) (mkPt (.co4 1 2 3 7))
    [mkPt (.co4 0 0 0 4), mkPt (.co4 1 0 0 5), mkPt (.co4 2 0 0 6)]
    [mkPt (.co4 0 0 0 7), mkPt (.co4 1 0 0 8), mkPt (.co4 2 0 0 9)] 1
    rfl (by simp [mkPt, PointCo.xyz])

/-- C6: the concrete distance scenario: with identity world transform and
threshold 1/2, the five collinear positions keep exactly `{0, 2, 4}`. -/
theorem C6_distance_concrete_keepset :
    _compute_keep_indices_distance Affine.id pts5 (1/2) = {0, 2, 4} := by
  simp [_compute_keep_indices_distance, distLoop, worldAt,
    _get_world_co_from_point, pts5, mkPt, Affine.id, Affine.apply, distSq,
    List.range']
  norm_num
  decide

/-- Processing one spline only rewrites objects in place: the object list
keeps its length. -/
lemma processSpline_objs_length (oid : ℕ) (acc : Ctx × ℕ × ℕ) (si : ℕ) :
    ((processSpline oid acc si).1).objs.length = acc.1.objs.length := by
  simp only [processSpline, _select_points_in_editmode, _delete_selected_points]
  split_ifs <;> simp

/-- The spline loop keeps the object list's length. -/
lemma foldl_processSpline_objs_length (oid : ℕ) :
    ∀ (l : List ℕ) (s : Ctx × ℕ × ℕ),
      ((l.foldl (processSpline oid) s).1).objs.length = s.1.objs.length := by
  intro l
  induction l with
  | nil =>
    intro s
    rfl
  | cons b rest ih =>
    intro s
    rw [List.foldl_cons, ih, processSpline_objs_length]

/-- Processing one object keeps the object list's length. -/
lemma processObj_objs_length (acc : Ctx × ℕ × ℕ) (oid : ℕ) :
    ((processObj acc oid).1).objs.length = acc.1.objs.length := by
  simp only [processObj, setObjMode]
  split_ifs <;> simp [foldl_processSpline_objs_length]

/-- The object loop keeps the object list's length. -/
lemma foldl_processObj_objs_length :
    ∀ (l : List ℕ) (s : Ctx × ℕ × ℕ),
      ((l.foldl processObj s).1).objs.length = s.1.objs.length := by
  intro l
  induction l with
  | nil =>
    intro s
    rfl
  | cons b rest ih =>
    intro s
    rw [List.foldl_cons, ih, processObj_objs_length]

/-- C5: when no curve object is selected and the active object is not a
curve, the operator reports the warning, returns CANCELLED, and leaves the
whole context — geometry, selection, active object and modes — unchanged. -/
theorem C5_no_target_cancelled (c : Ctx) (restoreOk : Bool)
    (hsel : ∀ i ∈ c.selected, (c.objs.getD i default).ty ≠ ObjType.CURVE)
    (hact : ∀ a ∈ c.active, (c.objs.getD a default).ty ≠ ObjType.CURVE) :
    execute restoreOk c =
      (OpResult.CANCELLED, c, [⟨Level.WARNING, noTargetMsg⟩]) := by
  have hfil : c.selected.filter
      (fun i => decide ((c.objs.getD i default).ty = ObjType.CURVE)) = [] := by
    rw [List.filter_eq_nil_iff]
    intro a ha
    simpa using hsel a ha
  have htarg : _curve_targets c = [] := by
    simp only [_curve_targets, hfil]
    rcases hoa : c.active with _ | a
    · simp
    · have h1 := hact a (by simp [hoa])
      rw [List.getD_eq_getElem?_getD] at h1
      simp [hoa, h1]
  simp only [execute, htarg]
  rfl

/-- Witness context for C5: a single non-curve object, nothing selected,
nothing active. -/
def ctxNoCurve : Ctx :=
  { objs := [⟨ObjType.OTHER, "OBJECT", Affine.id, []⟩],
    selected := [], active := none,
    scn := ⟨DecMode.STEP, 2, 1⟩ }

/-- Witness for C5: on the no-curve context the operator cancels with the
warning and changes nothing. -/
theorem C5_no_target_cancelled_witness :
    execute true ctxNoCurve =
      (OpResult.CANCELLED, ctxNoCurve, [⟨Level.WARNING, noTargetMsg⟩]) :=
  C5_no_target_cancelled ctxNoCurve true (by simp [ctxNoCurve]) (by simp [ctxNoCurve])

/-- C7: with at least one target and a previously active object, the
operator returns FINISHED with the summary report and restores the
previously active object whether or not restoring the mode raises; when
the mode restore does not raise, the previous mode is restored as well. -/
theorem C7_restore_best_effort (c : Ctx) (restoreOk : Bool) (a : ℕ)
    (hne : _curve_targets c ≠ [])
    (hact : c.active = some a)
    (ha : a < c.objs.length) :
    (execute restoreOk c).1 = OpResult.FINISHED ∧
    (execute restoreOk c).2.1.active = some a ∧
    (∃ k s r, (execute restoreOk c).2.2 = [⟨Level.INFO, summaryMsg k s r⟩]) ∧
    (restoreOk = true →
      ((execute restoreOk c).2.1.objs.getD a default).mode =
        (c.objs.getD a default).mode) := by
  have hfold : (((_curve_targets c).foldl processObj (c, 0, 0)).1).objs.length
      = c.objs.length := foldl_processObj_objs_length (_curve_targets c) (c, 0, 0)
  simp only [execute, hact]
  rw [if_neg hne]
  cases restoreOk with
  | false =>
    refine ⟨rfl, rfl, ⟨_, _, _, rfl⟩, ?_⟩
    intro h
    exact absurd h (by norm_num)
  | true =>
    refine ⟨rfl, ?_, ⟨_, _, _, rfl⟩, fun _ => ?_⟩
    · simp [setObjMode]
    · have ha' : a < ((_curve_targets c).foldl processObj (c, 0, 0)).1.objs.length := by
        rw [hfold]
        exact ha
      simp only [Prod.mk_zero_zero] at ha'
      simp [setObjMode, List.getElem?_set_self ha']

/-- Witness context for C7: one selected curve object with one five-point
spline, active and in OBJECT mode. -/
def ctxOneCurve : Ctx :=
  { objs := [⟨ObjType.CURVE, "OBJECT", Affine.id,
      [⟨SplineType.POLY, [mkPt (.co4 0 0 0 1), mkPt (.co4 1 0 0 1),
        mkPt (.co4 2 0 0 1), mkPt (.co4 3 0 0 1), mkPt (.co4 4 0 0 1)]⟩]⟩],
    selected := [0], active := some 0,
    scn := ⟨DecMode.STEP, 2, 1⟩ }

/-- Witness for C7: even when restoring the prior mode raises, the operator
finishes with its summary and the prior active object restored. -/
theorem C7_restore_best_effort_witness :
    (execute false ctxOneCurve).1 = OpResult.FINISHED ∧
    (execute false ctxOneCurve).2.1.active = some 0 ∧
    (∃ k s r, (execute false ctxOneCurve).2.2 = [⟨Level.INFO, summaryMsg k s r⟩]) ∧
    (false = true →
      ((execute false ctxOneCurve).2.1.objs.getD 0 default).mode =
        (ctxOneCurve.objs.getD 0 default).mode) :=
  C7_restore_best_effort ctxOneCurve false 0 (by decide) rfl (by decide)
